import Mathlib

/-!
# Verification of the station-queue backend

A shallow embedding of the queue backend (`netlify/functions/api.js`) of the
station-queue repository, together with proofs of the behavioural properties
stated in its specification.

Modelling conventions:

* The three Prisma tables become three fields of a `DB` record:
  `Station(id, name, managerId)`, `Queue(stationId, userId, position)` and the
  `Config` rows with key `lastPosition:<stationId>` (represented as an
  association list keyed directly by `stationId`, since the key format
  `"lastPosition:" ++ stationId` is injective in `stationId`; the JS code
  stores `String(n)` and reads it back with `parseInt`, an exact round trip
  for integers, so values are modelled as `Int`).  The `ADMIN_SECRET` config
  row is carried as a separate field `adminSecret`.
* `prisma.x.findUnique` / `findFirst` become `List.find?`; `orderBy position
  asc` becomes an insertion sort by `position`; `create` appends; `delete` on
  the composite key removes the first (hence, under the schema's uniqueness
  constraints, the only) matching row; `deleteMany` filters.
* Each Express handler becomes a function `DB → … → ApiResponse × DB`;
  response JSON bodies that differ in the source become different
  `ApiResponse` constructors.
* Ably publish calls have no effect on the database; each handler takes the
  outcomes of its publish attempts as an oracle (`Bool`, `true` = the publish
  ultimately succeeded, `false` = it threw after exhausting its retries).
  `Promise.allSettled` (in `publishToChannelsParallel`) swallows failures and
  returns the success count, which the handlers only log; an `await
  publishToChannel(...)` inside a `try` block rethrows into the handler's
  `catch`, producing the generic 500 `DB error` response.
-/

/-- A row of the `Station` table (`prisma/schema.prisma`): the station id,
its display name and the manager credential (`managerId`). -/
structure Station where
  id : String
  name : String
  managerId : String
deriving DecidableEq, Repr

/-- A row of the `Queue` table: composite primary key `(stationId, userId)`,
unique `(stationId, position)`. -/
structure QueueEntry where
  stationId : String
  userId : String
  position : Int
deriving DecidableEq, Repr

/-- The persistent state: the `Station` and `Queue` tables, the
`lastPosition:<stationId>` rows of the `Config` table (keyed by station id),
and the `ADMIN_SECRET` config value. -/
structure DB where
  stations : List Station
  queue : List QueueEntry
  counters : List (String × Int)
  adminSecret : String
deriving DecidableEq, Repr

/-- Models `prisma.station.findUnique({ where: { id } })`. -/
def findStation (db : DB) (sid : String) : Option Station :=
  db.stations.find? (fun s => s.id == sid)

/-- Models `prisma.queue.findUnique` on the composite key `(stationId, userId)`. -/
def findEntry (db : DB) (sid uid : String) : Option QueueEntry :=
  db.queue.find? (fun e => e.stationId == sid && e.userId == uid)

/-- Reading the `lastPosition:<sid>` config row from an association list. -/
def counterLookup (cs : List (String × Int)) (sid : String) : Option Int :=
  (cs.find? (fun kv => kv.1 == sid)).map Prod.snd

/-- The station's stored `lastPosition` counter, if any. -/
def counterOf (db : DB) (sid : String) : Option Int :=
  counterLookup db.counters sid

/-- Writing the `lastPosition:<sid>` config row (update if present, create
otherwise — the JS transaction does `create` then `update` in the absent
case, whose net effect is a single upsert of the final value). -/
def setCounter (cs : List (String × Int)) (sid : String) (v : Int) :
    List (String × Int) :=
  match cs with
  | [] => [(sid, v)]
  | kv :: rest =>
      if kv.1 == sid then (sid, v) :: rest else kv :: setCounter rest sid v

/-- Allocator `getNextPositionForStation` (api.js lines 23–56): inside one transaction,
read the station's `lastPosition` (defaulting to 99 when absent, so the first
issued value is 100), increment, store the incremented value, and return it. -/
def getNextPositionForStation (db : DB) (sid : String) : Int × DB :=
  let lastPosition : Int :=
    match counterOf db sid with
    | none => 99
    | some v => v
  let nextPosition := lastPosition + 1
  (nextPosition, { db with counters := setCounter db.counters sid nextPosition })

/-- Insert one entry into a list sorted ascending by `position`. -/
def insertByPos (e : QueueEntry) : List QueueEntry → List QueueEntry
  | [] => [e]
  | x :: xs =>
      if e.position ≤ x.position then e :: x :: xs else x :: insertByPos e xs

/-- Insertion sort ascending by `position`; models Prisma's
`orderBy: { position: 'asc' }`. -/
def sortByPosition : List QueueEntry → List QueueEntry
  | [] => []
  | x :: xs => insertByPos x (sortByPosition xs)

/-- Models `prisma.queue.findMany` for one station, ordered by position ascending. -/
def listByStation (db : DB) (sid : String) : List QueueEntry :=
  sortByPosition (db.queue.filter (fun e => e.stationId == sid))

/-- One item of the `/my-queues` response (and of the personal-queue
notifications): the station, the stable ticket number (`queueNumber`) and the
recomputed 1-based rank (`actualPosition`). -/
structure MyQueueItem where
  stationId : String
  stationName : String
  queueNumber : Int
  actualPosition : Nat
deriving DecidableEq, Repr

/-- Models `Array.prototype.findIndex` specialised to the user-id test
`sq => sq.userId === userId` (here `none` stands for JS's `-1`). -/
def findIndexUser (uid : String) : List QueueEntry → Option Nat
  | [] => none
  | x :: xs =>
      if x.userId == uid then some 0 else (findIndexUser uid xs).map (· + 1)

/-- The `actualPosition` computation repeated in `/my-queues` and in the
notification fan-out (api.js lines 574–583): re-read the station's queue
ordered by position, take the index of the user (`findIndex`), and report
`index + 1` (or 0 when the user is absent). -/
def actualPositionFor (db : DB) (sid uid : String) : Nat :=
  let stationQueue := listByStation db sid
  match findIndexUser uid stationQueue with
  | none => 0
  | some i => i + 1

/-- Body of `GET /my-queues` (api.js lines 559–603): one item per queue entry of
the user, ordered by `position`, each with the freshly recomputed rank.
(`q.station.name` is fetched through the relation; an entry without a station
cannot exist under the foreign key, so `getD ""` is never hit in practice.) -/
def myQueues (db : DB) (uid : String) : List MyQueueItem :=
  (sortByPosition (db.queue.filter (fun e => e.userId == uid))).map fun q =>
    { stationId := q.stationId
      stationName := ((findStation db q.stationId).map Station.name).getD ""
      queueNumber := q.position
      actualPosition := actualPositionFor db q.stationId uid }

/-- The JSON responses the handlers can send; bodies that differ in the
source are distinct constructors. -/
inductive ApiResponse where
  /-- HTTP 400 `{error: 'User ID required'}` -/
  | userIdRequired
  /-- HTTP 404 `{error: 'Station not found'}` -/
  | stationNotFound
  /-- HTTP 403 `{error: 'Forbidden'}` (view queue, admin operations, `/stations`) -/
  | forbidden
  /-- HTTP 400 `{error: 'Name required'}` -/
  | nameRequired
  /-- HTTP 200 `{queueNumber}` from join -/
  | joined (queueNumber : Int)
  /-- HTTP 200 `{queue: [{user_id, position}]}` from view queue -/
  | viewOk (queue : List (String × Int))
  /-- HTTP 403 `{error: 'Forbidden', reason: 'Station not found'}` from pop -/
  | popForbiddenNotFound
  /-- HTTP 403 `{error: 'Forbidden', reason: 'ManagerId mismatch', dbManagerId,
  incomingManagerId}` from pop — note it echoes the stored manager key -/
  | popForbiddenMismatch (dbManagerId : String) (incomingManagerId : Option String)
  /-- HTTP 200 `{popped}` -/
  | popResult (popped : Option String)
  /-- HTTP 200 list of full `Station` records (`id`, `name`, `managerId`) -/
  | stationsOk (stations : List Station)
  /-- HTTP 200 the created `Station` record -/
  | stationCreated (station : Station)
  /-- HTTP 200 `{success: true}` from delete station -/
  | deleteOk
  /-- HTTP 200 `/my-queues` body -/
  | myQueuesOk (items : List MyQueueItem)
  /-- HTTP 500 `{error: 'DB error'}` (any `catch` block) -/
  | dbError
deriving DecidableEq, Repr

/-- JS falsiness of the `userId` taken from cookie or `x-user-id` header:
absent or empty. -/
def noUserId : Option String → Bool
  | none => true
  | some s => s == ""

/-- Models `publishToChannelsParallel` (api.js lines 134–145): `Promise.allSettled`
over the publish attempts — rejections are only logged, and the number of
fulfilled publishes is returned (the handlers merely log it). -/
def countSuccesses (pub : Nat → Bool) (n : Nat) : Nat :=
  (List.range n).countP pub

/-- Models `prisma.queue.create`: fails (Prisma error P2002) when a row with the
same composite key `(stationId, userId)` or the same unique pair
`(stationId, position)` already exists; otherwise appends the row. -/
def queueCreate (db : DB) (e : QueueEntry) : Except Unit DB :=
  if db.queue.any (fun x => x.stationId == e.stationId && x.userId == e.userId) then
    .error ()
  else if db.queue.any (fun x => x.stationId == e.stationId && x.position == e.position) then
    .error ()
  else
    .ok { db with queue := db.queue ++ [e] }

/-- The tail of the join handler after the existing-entry check came back
empty (api.js lines 320–324): allocate the next position (its transaction
commits on its own) and insert.  A failing insert — the lost side of a
concurrent-join race — throws into the handler's catch-all (lines 379–382),
which answers 500 `DB error`; the counter increment is already committed. -/
def joinInsertPath (db : DB) (sid uid : String) : ApiResponse × DB :=
  let alloc := getNextPositionForStation db sid
  match queueCreate alloc.2 ⟨sid, uid, alloc.1⟩ with
  | .error _ => (.dbError, alloc.2)
  | .ok db2 => (.joined alloc.1, db2)

/-- Handler of `POST /queue/:stationId` (api.js lines 296–383).  `pub` is the outcome
oracle for the two parallel publishes; `allSettled` swallows failures, so
neither the response nor the state depends on it. -/
def joinQueue (db : DB) (sid : String) (userId : Option String)
    (pub : Nat → Bool) : ApiResponse × DB :=
  if noUserId userId then (.userIdRequired, db)
  else
    let uid := userId.getD ""
    match findStation db sid with
    | none => (.stationNotFound, db)
    | some _ =>
        match findEntry db sid uid with
        | some e =>
            let _publishResults := countSuccesses pub 2
            (.joined e.position, db)
        | none =>
            match joinInsertPath db sid uid with
            | (r, db2) =>
                let _publishResults := countSuccesses pub 2
                (r, db2)

/-- Handler of `GET /queue/:stationId` (api.js lines 386–400): a missing station and a
manager-key mismatch take the same branch and send the same body. -/
def viewQueue (db : DB) (sid : String) (managerId : Option String) : ApiResponse :=
  match findStation db sid with
  | none => .forbidden
  | some st =>
      if managerId ≠ some st.managerId then .forbidden
      else .viewOk ((listByStation db sid).map fun e => (e.userId, e.position))

/-- Handler of `POST /queue/:stationId/pop` (api.js lines 403–556).  The two 403 bodies
differ (lines 420–427); `findFirst` ordered by position is the head of the
sorted list; `delete` on the composite key removes that row; every publish
goes through `allSettled`, so `pub` affects nothing. -/
def popQueue (db : DB) (sid : String) (managerId : Option String)
    (pub : Nat → Bool) : ApiResponse × DB :=
  match findStation db sid with
  | none => (.popForbiddenNotFound, db)
  | some st =>
      if managerId ≠ some st.managerId then
        (.popForbiddenMismatch st.managerId managerId, db)
      else
        match (listByStation db sid).head? with
        | none => (.popResult none, db)
        | some first =>
            let db' := { db with
              queue := db.queue.eraseP
                (fun e => e.stationId == sid && e.userId == first.userId) }
            let remaining := (listByStation db' sid).map QueueEntry.userId
            let _publishResults := countSuccesses pub (3 + remaining.length)
            (.popResult (some first.userId), db')

/-- Handler of `GET /stations` (api.js lines 281–293): the admin secret is only checked
when the `x-admin-secret` header is present; the full records — manager keys
included — are returned either way. -/
def listStations (db : DB) (adminHeader : Option String) : ApiResponse :=
  match adminHeader with
  | some s => if s ≠ db.adminSecret then .forbidden else .stationsOk db.stations
  | none => .stationsOk db.stations

/-- Handler of `POST /admin/stations` (api.js lines 181–204).  `newId` and
`newManagerId` model the two `randomUUID()` calls (assumed fresh).  The
publish is `await`ed inside the `try`, so a publish that ultimately throws
lands in the catch: the station row is already committed but the caller gets
500 `DB error`. -/
def createStation (db : DB) (secret : Option String) (name : String)
    (newId newManagerId : String) (pubOk : Bool) : ApiResponse × DB :=
  if secret ≠ some db.adminSecret then (.forbidden, db)
  else if name == "" then (.nameRequired, db)
  else
    let st : Station := ⟨newId, name, newManagerId⟩
    let db' := { db with stations := db.stations ++ [st] }
    if pubOk then (.stationCreated st, db') else (.dbError, db')

/-- Handler of `DELETE /admin/stations/:id` (api.js lines 207–239): `deleteMany` the
queue rows, `deleteMany` the `lastPosition:<id>` config row, `delete` the
station (this throws if the station is absent — the earlier `deleteMany`
effects are separate statements and stand), then the `await`ed publish, whose
failure likewise produces 500 after all deletions committed. -/
def deleteStation (db : DB) (secret : Option String) (sid : String)
    (pubOk : Bool) : ApiResponse × DB :=
  if secret ≠ some db.adminSecret then (.forbidden, db)
  else
    let db1 := { db with
      queue := db.queue.filter (fun e => !(e.stationId == sid)),
      counters := db.counters.filter (fun kv => !(kv.1 == sid)) }
    match findStation db1 sid with
    | none => (.dbError, db1)
    | some _ =>
        let db2 := { db1 with stations := db1.stations.eraseP (fun s => s.id == sid) }
        if pubOk then (.deleteOk, db2) else (.dbError, db2)

/-- Handler of `GET /my-queues` (api.js lines 559–603). -/
def myQueuesHandler (db : DB) (userId : Option String) : ApiResponse :=
  if noUserId userId then .userIdRequired
  else .myQueuesOk (myQueues db (userId.getD ""))

/-- The positions returned by `n` successive allocator calls for one
station, together with the final state. -/
def allocTrace : DB → String → Nat → List Int × DB
  | db, _, 0 => ([], db)
  | db, sid, n + 1 =>
      let step := getNextPositionForStation db sid
      let rest := allocTrace step.2 sid n
      (step.1 :: rest.1, rest.2)

theorem counterLookup_setCounter_self (cs : List (String × Int)) (sid : String)
    (v : Int) : counterLookup (setCounter cs sid v) sid = some v := by
  induction cs with
  | nil => simp [setCounter, counterLookup]
  | cons kv rest ih =>
      by_cases h : kv.1 = sid
      · simp [setCounter, counterLookup, h]
      · simp only [setCounter, counterLookup]
        rw [if_neg (by simpa using h)]
        simpa [counterLookup, List.find?, (by simpa using h : (kv.1 == sid) = false)]
          using ih

theorem counterLookup_setCounter_other (cs : List (String × Int))
    (sid sid' : String) (v : Int) (h : sid' ≠ sid) :
    counterLookup (setCounter cs sid v) sid' = counterLookup cs sid' := by
  induction cs with
  | nil =>
      simp [setCounter, counterLookup, List.find?, (by simpa using h.symm : (sid == sid') = false)]
  | cons kv rest ih =>
      by_cases hk : kv.1 = sid
      · subst hk
        simp [setCounter, counterLookup, List.find?,
          (by simpa using h.symm : (kv.1 == sid') = false)]
      · simp only [setCounter]
        rw [if_neg (by simpa using hk)]
        by_cases hk' : kv.1 = sid'
        · simp [counterLookup, List.find?, hk']
        · simpa [counterLookup, List.find?,
            (by simpa using hk' : (kv.1 == sid') = false)] using ih

/-! ## Store invariants

`WF` states the schema's uniqueness constraints: `@@id([stationId, userId])`
and `@@unique([stationId, position])` on the `Queue` table.  `CounterInv`
states the allocator invariant that every stored position is covered by the
station's `lastPosition` counter. -/

/-- The `Queue` table's two uniqueness constraints. -/
def WF (db : DB) : Prop :=
  db.queue.Pairwise (fun a b => ¬(a.stationId = b.stationId ∧ a.userId = b.userId)) ∧
  db.queue.Pairwise (fun a b => ¬(a.stationId = b.stationId ∧ a.position = b.position))

instance (db : DB) : Decidable (WF db) := by
  unfold WF; infer_instance

/-- Every stored entry's position is at most its station's `lastPosition`. -/
def CounterInv (db : DB) : Prop :=
  ∀ e ∈ db.queue, ∃ v, counterOf db e.stationId = some v ∧ e.position ≤ v

instance (db : DB) : Decidable (CounterInv db) := by
  unfold CounterInv; infer_instance

/-! ## Sorting lemmas -/

/-- The ordering used by `orderBy: { position: 'asc' }`. -/
def posLe (a b : QueueEntry) : Prop := a.position ≤ b.position

theorem insertByPos_perm (e : QueueEntry) (l : List QueueEntry) :
    List.Perm (insertByPos e l) (e :: l) := by
  induction l with
  | nil => simp [insertByPos]
  | cons x xs ih =>
      by_cases h : e.position ≤ x.position
      · simp [insertByPos, h]
      · simp only [insertByPos, if_neg h]
        exact ((ih.cons x).trans (List.Perm.swap e x xs))

theorem sortByPosition_perm (l : List QueueEntry) :
    List.Perm (sortByPosition l) l := by
  induction l with
  | nil => simp [sortByPosition]
  | cons x xs ih =>
      exact (insertByPos_perm x (sortByPosition xs)).trans (ih.cons x)

theorem mem_sortByPosition {l : List QueueEntry} {e : QueueEntry} :
    e ∈ sortByPosition l ↔ e ∈ l :=
  (sortByPosition_perm l).mem_iff

theorem pairwise_posLe_insertByPos (e : QueueEntry) {l : List QueueEntry}
    (h : l.Pairwise posLe) : (insertByPos e l).Pairwise posLe := by
  induction l with
  | nil => simp [insertByPos, List.Pairwise]
  | cons x xs ih =>
      by_cases hle : e.position ≤ x.position
      · simp only [insertByPos, if_pos hle]
        refine List.Pairwise.cons ?_ h
        intro y hy
        rcases List.mem_cons.mp hy with rfl | hy'
        · exact hle
        · exact le_trans hle (List.rel_of_pairwise_cons h hy')
      · simp only [insertByPos, if_neg hle]
        refine List.Pairwise.cons ?_ (ih h.tail)
        intro y hy
        have hy' : y ∈ e :: xs := (insertByPos_perm e xs).mem_iff.mp hy
        rcases List.mem_cons.mp hy' with rfl | hyx
        · exact le_of_lt (lt_of_not_le hle)
        · exact List.rel_of_pairwise_cons h hyx

theorem sortByPosition_sorted (l : List QueueEntry) :
    (sortByPosition l).Pairwise posLe := by
  induction l with
  | nil => simp [sortByPosition]
  | cons x xs ih => exact pairwise_posLe_insertByPos x ih

/-! ## Rank computation -/

theorem findIndexUser_eq_countP (uid : String) (e : QueueEntry)
    (l : List QueueEntry) (hmem : e ∈ l) (huid : e.userId = uid)
    (hsorted : l.Pairwise posLe)
    (husers : l.Pairwise (fun a b => a.userId ≠ b.userId))
    (hpos : l.Pairwise (fun a b => a.position ≠ b.position)) :
    findIndexUser uid l =
      some (l.countP (fun x => decide (x.position < e.position))) := by
  induction l with
  | nil => cases hmem
  | cons x t ih =>
      by_cases hx : x.userId = uid
      · have hex : e = x := by
          rcases List.mem_cons.mp hmem with rfl | het
          · rfl
          · exact absurd (hx.trans huid.symm)
              (List.rel_of_pairwise_cons husers het)
        subst hex
        have hzero : t.countP (fun x => decide (x.position < e.position)) = 0 := by
          refine List.countP_eq_zero.mpr ?_
          intro y hy
          have h1 : e.position ≤ y.position := List.rel_of_pairwise_cons hsorted hy
          simp only [decide_eq_true_eq]
          omega
        simp [findIndexUser, hx, List.countP_cons, hzero]
      · have het : e ∈ t := by
          rcases List.mem_cons.mp hmem with rfl | het
          · exact absurd huid hx
          · exact het
        have hlt : x.position < e.position := by
          have h1 : x.position ≤ e.position := List.rel_of_pairwise_cons hsorted het
          have h2 : x.position ≠ e.position := List.rel_of_pairwise_cons hpos het
          omega
        have := ih het hsorted.tail husers.tail hpos.tail
        simp [findIndexUser, hx, this, List.countP_cons, hlt, Nat.add_comm]

/-! ## Allocator lemmas -/

/-- The value the allocator treats as the station's last issued position:
the stored counter, or 99 when none exists yet. -/
def startIssued (db : DB) (sid : String) : Int :=
  match counterOf db sid with
  | none => 99
  | some v => v

theorem getNext_fst (db : DB) (sid : String) :
    (getNextPositionForStation db sid).1 = startIssued db sid + 1 := by
  simp [getNextPositionForStation, startIssued]

theorem getNext_counter (db : DB) (sid : String) :
    counterOf (getNextPositionForStation db sid).2 sid =
      some (startIssued db sid + 1) := by
  simp only [getNextPositionForStation, counterOf, startIssued]
  exact counterLookup_setCounter_self _ _ _

theorem getNext_counter_other (db : DB) (sid sid' : String) (h : sid' ≠ sid) :
    counterOf (getNextPositionForStation db sid).2 sid' = counterOf db sid' := by
  simp only [getNextPositionForStation, counterOf]
  exact counterLookup_setCounter_other _ _ _ _ h

theorem getNext_startIssued (db : DB) (sid : String) :
    startIssued (getNextPositionForStation db sid).2 sid =
      startIssued db sid + 1 := by
  simp [startIssued, getNext_counter]

theorem getNext_stations (db : DB) (sid : String) :
    (getNextPositionForStation db sid).2.stations = db.stations := rfl

theorem getNext_queue (db : DB) (sid : String) :
    (getNextPositionForStation db sid).2.queue = db.queue := rfl

theorem allocTrace_fst (sid : String) :
    ∀ (n : Nat) (db : DB),
      (allocTrace db sid n).1 =
        (List.range n).map (fun (i : Nat) => startIssued db sid + 1 + (i : Int))
  | 0, db => by simp [allocTrace]
  | n + 1, db => by
      have ih := allocTrace_fst sid n (getNextPositionForStation db sid).2
      have hstep : (allocTrace db sid (n + 1)).1 =
          (getNextPositionForStation db sid).1 ::
            (allocTrace (getNextPositionForStation db sid).2 sid n).1 := rfl
      rw [hstep, ih, getNext_startIssued, getNext_fst,
        List.range_succ_eq_map, List.map_cons, List.map_map]
      congr 1
      · simp
      · refine List.map_congr_left ?_
        intro i _
        simp only [Function.comp_apply, Nat.succ_eq_add_one]
        push_cast
        ring

theorem allocTrace_counter (sid : String) :
    ∀ (n : Nat) (db : DB), 0 < n →
      counterOf (allocTrace db sid n).2 sid = some (startIssued db sid + n)
  | 0, _, h => absurd h (by omega)
  | 1, db, _ => by
      simpa [allocTrace] using getNext_counter db sid
  | n + 2, db, _ => by
      have ih := allocTrace_counter sid (n + 1)
        (getNextPositionForStation db sid).2 (by omega)
      have hstep : (allocTrace db sid (n + 2)).2 =
          (allocTrace (getNextPositionForStation db sid).2 sid (n + 1)).2 := rfl
      rw [hstep, ih, getNext_startIssued]
      congr 1
      push_cast
      ring

theorem allocTrace_state (sid : String) :
    ∀ (n : Nat) (db : DB),
      (allocTrace db sid n).2.stations = db.stations ∧
      (allocTrace db sid n).2.queue = db.queue
  | 0, db => ⟨rfl, rfl⟩
  | n + 1, db => by
      have ih := allocTrace_state sid n (getNextPositionForStation db sid).2
      simpa [allocTrace, getNext_stations, getNext_queue] using ih

/-- Pop never touches the `lastPosition` counters (nor the stations). -/
theorem popQueue_counters (db : DB) (sid : String) (m : Option String)
    (pub : Nat → Bool) :
    ((popQueue db sid m pub).2).counters = db.counters ∧
    ((popQueue db sid m pub).2).stations = db.stations := by
  unfold popQueue
  cases findStation db sid with
  | none => exact ⟨rfl, rfl⟩
  | some st =>
      by_cases h : m ≠ some st.managerId
      · simp [h]
      · simp only [if_neg h]
        cases (listByStation db sid).head? with
        | none => exact ⟨rfl, rfl⟩
        | some first => exact ⟨rfl, rfl⟩

/-! ## Uniqueness and erasure helpers -/

/-- In a list where no two elements both satisfy `p`, erasing the first
`p`-match removes exactly the unique matching element `a`. -/
theorem mem_eraseP_of_unique {α : Type} {p : α → Bool} :
    ∀ {l : List α} {a : α}, a ∈ l → p a = true →
      l.Pairwise (fun x y => ¬(p x = true ∧ p y = true)) →
      ∀ x, x ∈ l.eraseP p ↔ (x ∈ l ∧ x ≠ a)
  | [], a, hmem, _, _ => by cases hmem
  | b :: t, a, hmem, hpa, honce => by
      intro x
      by_cases hpb : p b = true
      · have hba : a = b := by
          rcases List.mem_cons.mp hmem with rfl | hat
          · rfl
          · exact absurd ⟨hpb, hpa⟩ (List.rel_of_pairwise_cons honce hat)
        subst hba
        have hnt : ∀ y ∈ t, p y = false := by
          intro y hy
          by_contra hcon
          exact (List.rel_of_pairwise_cons honce hy)
            ⟨hpb, by simpa using hcon⟩
        simp only [List.eraseP_cons, hpb, cond_true]
        constructor
        · intro hxt
          refine ⟨List.mem_cons_of_mem _ hxt, ?_⟩
          rintro rfl
          exact absurd hpa (by simp [hnt x hxt])
        · rintro ⟨hx, hne⟩
          rcases List.mem_cons.mp hx with rfl | hxt
          · exact absurd rfl hne
          · exact hxt
      · have hab : a ≠ b := by
          rintro rfl
          exact hpb hpa
        have hat : a ∈ t := by
          rcases List.mem_cons.mp hmem with rfl | hat
          · exact absurd rfl hab
          · exact hat
        have ih := mem_eraseP_of_unique hat hpa honce.tail x
        simp only [List.eraseP_cons, hpb, cond_false]
        constructor
        · intro hx
          rcases List.mem_cons.mp hx with rfl | hx'
          · exact ⟨List.mem_cons_self _ _, hab.symm⟩
          · rcases ih.mp hx' with ⟨h1, h2⟩
            exact ⟨List.mem_cons_of_mem _ h1, h2⟩
        · rintro ⟨hx, hne⟩
          rcases List.mem_cons.mp hx with rfl | hx'
          · exact List.mem_cons_self _ _
          · exact List.mem_cons_of_mem _ (ih.mpr ⟨hx', hne⟩)

/-- In a list where no two elements both satisfy `p`, at most one does. -/
theorem countP_le_one_of_pairwise {α : Type} {p : α → Bool} :
    ∀ {l : List α}, l.Pairwise (fun x y => ¬(p x = true ∧ p y = true)) →
      l.countP p ≤ 1
  | [], _ => by simp
  | b :: t, honce => by
      by_cases hpb : p b = true
      · have hnt : t.countP p = 0 := by
          refine List.countP_eq_zero.mpr ?_
          intro y hy
          exact fun hpy => (List.rel_of_pairwise_cons honce hy) ⟨hpb, hpy⟩
        simp [List.countP_cons, hpb, hnt]
      · have h3 : t.countP p ≤ 1 := countP_le_one_of_pairwise honce.tail
        have hpb' : p b = false := by simpa using hpb
        simp [List.countP_cons, hpb']
        omega

/-- If exactly the element `a` can satisfy `p`, the count is exactly one. -/
theorem countP_eq_one_of_unique {α : Type} {p : α → Bool} {l : List α} {a : α}
    (hmem : a ∈ l) (hpa : p a = true)
    (honce : l.Pairwise (fun x y => ¬(p x = true ∧ p y = true))) :
    l.countP p = 1 := by
  have h1 : 0 < l.countP p := List.countP_pos_iff.mpr ⟨a, hmem, hpa⟩
  have h2 := countP_le_one_of_pairwise honce
  omega

/-! ## Per-station consequences of the schema constraints -/

theorem listByStation_pairwise_userNe (db : DB) (sid : String) (hwf : WF db) :
    (listByStation db sid).Pairwise (fun a b => a.userId ≠ b.userId) := by
  have h1 : (db.queue.filter (fun e => e.stationId == sid)).Pairwise
      (fun a b => ¬(a.stationId = b.stationId ∧ a.userId = b.userId)) :=
    List.Pairwise.sublist (List.filter_sublist _) hwf.1
  have h2 : (db.queue.filter (fun e => e.stationId == sid)).Pairwise
      (fun a b => a.userId ≠ b.userId) := by
    refine List.Pairwise.imp_of_mem ?_ h1
    intro a b ha hb hR huid
    have ha' : a.stationId = sid := by simpa using (List.mem_filter.mp ha).2
    have hb' : b.stationId = sid := by simpa using (List.mem_filter.mp hb).2
    exact hR ⟨ha'.trans hb'.symm, huid⟩
  exact ((sortByPosition_perm _).pairwise_iff (fun h => h.symm)).mpr h2

theorem listByStation_pairwise_posNe (db : DB) (sid : String) (hwf : WF db) :
    (listByStation db sid).Pairwise (fun a b => a.position ≠ b.position) := by
  have h1 : (db.queue.filter (fun e => e.stationId == sid)).Pairwise
      (fun a b => ¬(a.stationId = b.stationId ∧ a.position = b.position)) :=
    List.Pairwise.sublist (List.filter_sublist _) hwf.2
  have h2 : (db.queue.filter (fun e => e.stationId == sid)).Pairwise
      (fun a b => a.position ≠ b.position) := by
    refine List.Pairwise.imp_of_mem ?_ h1
    intro a b ha hb hR hpos
    have ha' : a.stationId = sid := by simpa using (List.mem_filter.mp ha).2
    have hb' : b.stationId = sid := by simpa using (List.mem_filter.mp hb).2
    exact hR ⟨ha'.trans hb'.symm, hpos⟩
  exact ((sortByPosition_perm _).pairwise_iff (fun h => h.symm)).mpr h2

theorem listByStation_sorted (db : DB) (sid : String) :
    (listByStation db sid).Pairwise posLe :=
  sortByPosition_sorted _

theorem mem_listByStation {db : DB} {sid : String} {e : QueueEntry} :
    e ∈ listByStation db sid ↔ e ∈ db.queue ∧ e.stationId = sid := by
  unfold listByStation
  rw [mem_sortByPosition, List.mem_filter]
  simp

/-- The reported `actualPosition` is one more than the number of entries of
the same station with a strictly smaller position. -/
theorem actualPosition_eq_rank (db : DB) (e : QueueEntry)
    (hwf : WF db) (he : e ∈ db.queue) :
    actualPositionFor db e.stationId e.userId =
      1 + db.queue.countP
        (fun x => x.stationId == e.stationId && decide (x.position < e.position)) := by
  have hes : e ∈ listByStation db e.stationId := mem_listByStation.mpr ⟨he, rfl⟩
  have hidx := findIndexUser_eq_countP e.userId e (listByStation db e.stationId)
    hes rfl (listByStation_sorted db e.stationId)
    (listByStation_pairwise_userNe db e.stationId hwf)
    (listByStation_pairwise_posNe db e.stationId hwf)
  have hdef : actualPositionFor db e.stationId e.userId =
      match findIndexUser e.userId (listByStation db e.stationId) with
      | none => 0
      | some i => i + 1 := rfl
  rw [hdef, hidx]
  have hcount : (listByStation db e.stationId).countP
      (fun x => decide (x.position < e.position)) =
      db.queue.countP
        (fun x => x.stationId == e.stationId && decide (x.position < e.position)) := by
    unfold listByStation
    rw [(sortByPosition_perm _).countP_eq, List.countP_filter]
    refine List.countP_congr ?_
    intro a _
    simp [Bool.and_comm]
  rw [hcount]
  simp [Nat.add_comm]

/-! ## Claim theorems -/

/-- C1: positions are issued per station in strictly increasing order from
the floor of 100: with no stored counter the `n` successive calls return
`100, 101, …`; with counter `v` they return `v+1, v+2, …`; the returned
sequence is strictly increasing and never repeats a value; every issued
position is at most the final `lastIssued`, which never decreases; and pop
never touches the counters, so a popped entry's position stays issued. -/
theorem allocator_strictly_increasing_never_reuses (db : DB) (sid : String)
    (n : Nat) :
    (counterOf db sid = none →
      (allocTrace db sid n).1 =
        (List.range n).map (fun (i : Nat) => (100 : Int) + i)) ∧
    (∀ v : Int, counterOf db sid = some v →
      (allocTrace db sid n).1 =
        (List.range n).map (fun (i : Nat) => v + 1 + (i : Int))) ∧
    (allocTrace db sid n).1.Pairwise (· < ·) ∧
    (allocTrace db sid n).1.Pairwise (· ≠ ·) ∧
    (0 < n →
      counterOf (allocTrace db sid n).2 sid = some (startIssued db sid + n) ∧
      ∀ p ∈ (allocTrace db sid n).1, p ≤ startIssued db sid + n) ∧
    (∀ v w : Int, counterOf db sid = some v →
      counterOf (allocTrace db sid n).2 sid = some w → v ≤ w) ∧
    (∀ (db' : DB) (sid' : String) (m : Option String) (pub : Nat → Bool),
      ((popQueue db' sid' m pub).2).counters = db'.counters) := by
  have htr := allocTrace_fst sid n db
  refine ⟨?_, ?_, ?_, ?_, ?_, ?_, ?_⟩
  · intro h0
    rw [htr]
    refine List.map_congr_left ?_
    intro i _
    simp only [startIssued, h0]
    omega
  · intro v hv
    rw [htr]
    refine List.map_congr_left ?_
    intro i _
    simp only [startIssued, hv]
  · rw [htr]
    refine List.Pairwise.map _ ?_ (List.pairwise_lt_range n)
    intro a b hab
    omega
  · rw [htr]
    refine List.Pairwise.map _ ?_ (List.pairwise_lt_range n)
    intro a b hab
    omega
  · intro hn
    refine ⟨allocTrace_counter sid n db hn, ?_⟩
    intro p hp
    rw [htr] at hp
    obtain ⟨i, hi, rfl⟩ := List.mem_map.mp hp
    have hin : i < n := List.mem_range.mp hi
    omega
  · intro v w hv hw
    cases n with
    | zero =>
        simp only [allocTrace] at hw
        rw [hv] at hw
        exact le_of_eq (Option.some.inj hw)
    | succ m =>
        rw [allocTrace_counter sid (m + 1) db (by omega)] at hw
        have hsv : startIssued db sid = v := by simp [startIssued, hv]
        have hw' := Option.some.inj hw
        omega
  · intro db' sid' m pub
    exact (popQueue_counters db' sid' m pub).1

/-- Witness for C1 at a concrete empty store: the first three issued
positions for a fresh station are 100, 101, 102. -/
theorem allocator_strictly_increasing_never_reuses_witness :
    (allocTrace ⟨[], [], [], "adm"⟩ "s1" 3).1 = [100, 101, 102] := by
  rw [(allocator_strictly_increasing_never_reuses ⟨[], [], [], "adm"⟩ "s1" 3).1 rfl]
  decide

/-- C9: a pop with the correct manager credential on a station with no queue
entries answers `{popped: null}` — a success, not an error — and returns the
store unchanged. -/
theorem pop_empty_returns_none (db : DB) (sid : String) (st : Station)
    (pub : Nat → Bool) (hst : findStation db sid = some st)
    (hempty : db.queue.filter (fun e => e.stationId == sid) = []) :
    popQueue db sid (some st.managerId) pub = (ApiResponse.popResult none, db) := by
  have h1 : listByStation db sid = [] := by
    unfold listByStation
    rw [hempty]
    rfl
  simp [popQueue, hst, h1]

/-- Witness for C9: concrete store with one station, an entry in a different
station, and the matching credential. -/
theorem pop_empty_returns_none_witness :
    popQueue ⟨[⟨"s1", "Desk", "m1"⟩], [⟨"s2", "p1", 100⟩], [("s2", 100)], "adm"⟩
        "s1" (some "m1") (fun _ => true) =
      (ApiResponse.popResult none,
        ⟨[⟨"s1", "Desk", "m1"⟩], [⟨"s2", "p1", 100⟩], [("s2", 100)], "adm"⟩) :=
  pop_empty_returns_none _ "s1" ⟨"s1", "Desk", "m1"⟩ _ (by decide) (by decide)

/-- C2 counterexample: on a store holding station `s1` with manager key
`m1`, popping `s1` with a wrong credential and popping the nonexistent `s2`
are both 403 but send different bodies, and the mismatch body echoes the
stored manager key `m1` — the two cases are distinguishable and the reply
leaks the secret, contrary to the claim. -/
theorem pop_forbidden_distinguishable_cex :
    (popQueue ⟨[⟨"s1", "Desk", "m1"⟩], [], [], "adm"⟩ "s1" (some "wrong")
        (fun _ => true)).1 =
      ApiResponse.popForbiddenMismatch "m1" (some "wrong") ∧
    (popQueue ⟨[⟨"s1", "Desk", "m1"⟩], [], [], "adm"⟩ "s2" (some "wrong")
        (fun _ => true)).1 =
      ApiResponse.popForbiddenNotFound ∧
    (popQueue ⟨[⟨"s1", "Desk", "m1"⟩], [], [], "adm"⟩ "s1" (some "wrong")
        (fun _ => true)).1 ≠
      (popQueue ⟨[⟨"s1", "Desk", "m1"⟩], [], [], "adm"⟩ "s2" (some "wrong")
        (fun _ => true)).1 := by
  refine ⟨by decide, by decide, by decide⟩

/-- C2 (amended): for ViewQueue, a credential mismatch on an existing
station and a nonexistent station are answered with the identical
`Forbidden` body.  For Pop both cases are 403, but the bodies differ — the
nonexistent case carries reason "Station not found" while the mismatch case
carries reason "ManagerId mismatch" together with the station's stored
manager key and the caller's credential — so Pop's reply reveals both
station existence and the manager key. -/
theorem forbidden_view_identical_pop_distinguishable (db : DB) (sid : String)
    (cred : Option String) (pub : Nat → Bool) :
    (findStation db sid = none →
      viewQueue db sid cred = ApiResponse.forbidden ∧
      (popQueue db sid cred pub).1 = ApiResponse.popForbiddenNotFound) ∧
    (∀ st : Station, findStation db sid = some st → cred ≠ some st.managerId →
      viewQueue db sid cred = ApiResponse.forbidden ∧
      (popQueue db sid cred pub).1 =
        ApiResponse.popForbiddenMismatch st.managerId cred) := by
  constructor
  · intro h0
    constructor
    · simp [viewQueue, h0]
    · simp [popQueue, h0]
  · intro st hst hne
    constructor
    · simp [viewQueue, hst, hne]
    · simp [popQueue, hst, hne]

/-- Witness for the amended C2 on the concrete store of the counterexample. -/
theorem forbidden_view_identical_pop_distinguishable_witness :
    viewQueue ⟨[⟨"s1", "Desk", "m1"⟩], [], [], "adm"⟩ "s1" (some "wrong") =
      ApiResponse.forbidden ∧
    viewQueue ⟨[⟨"s1", "Desk", "m1"⟩], [], [], "adm"⟩ "s2" (some "wrong") =
      ApiResponse.forbidden := by
  refine ⟨((forbidden_view_identical_pop_distinguishable
      ⟨[⟨"s1", "Desk", "m1"⟩], [], [], "adm"⟩ "s1" (some "wrong")
      (fun _ => true)).2 ⟨"s1", "Desk", "m1"⟩ (by decide) (by decide)).1,
    ((forbidden_view_identical_pop_distinguishable
      ⟨[⟨"s1", "Desk", "m1"⟩], [], [], "adm"⟩ "s2" (some "wrong")
      (fun _ => true)).1 (by decide)).1⟩

/-- C10: listing stations with no `x-admin-secret` header skips the
credential check and returns the complete records, manager keys included;
that manager key is exactly the credential ViewQueue and Pop accept. -/
theorem stations_endpoint_returns_manager_keys (db : DB) :
    listStations db none = ApiResponse.stationsOk db.stations ∧
    (∀ st : Station, findStation db st.id = some st →
      viewQueue db st.id (some st.managerId) =
        ApiResponse.viewOk
          ((listByStation db st.id).map fun e => (e.userId, e.position)) ∧
      ∀ pub : Nat → Bool,
        (popQueue db st.id (some st.managerId) pub).1 =
          ApiResponse.popResult
            ((listByStation db st.id).head?.map QueueEntry.userId)) := by
  refine ⟨rfl, ?_⟩
  intro st hst
  constructor
  · simp [viewQueue, hst]
  · intro pub
    cases hh : (listByStation db st.id).head? with
    | none => simp [popQueue, hst, hh]
    | some first => simp [popQueue, hst, hh]

/-- Witness for C10: a concrete store whose only station's manager key is
returned by `/stations` and accepted by view/pop. -/
theorem stations_endpoint_returns_manager_keys_witness :
    listStations ⟨[⟨"s1", "Desk", "m1"⟩], [⟨"s1", "p1", 100⟩], [("s1", 100)], "adm"⟩
        none =
      ApiResponse.stationsOk [⟨"s1", "Desk", "m1"⟩] ∧
    viewQueue ⟨[⟨"s1", "Desk", "m1"⟩], [⟨"s1", "p1", 100⟩], [("s1", 100)], "adm"⟩
        "s1" (some "m1") =
      ApiResponse.viewOk [("p1", 100)] := by
  have h := stations_endpoint_returns_manager_keys
    ⟨[⟨"s1", "Desk", "m1"⟩], [⟨"s1", "p1", 100⟩], [("s1", 100)], "adm"⟩
  refine ⟨h.1, ?_⟩
  have h2 := (h.2 ⟨"s1", "Desk", "m1"⟩ (by decide)).1
  rw [h2]
  decide

/-- C6 counterexample: CreateStation with a valid admin secret whose Ably
publish ultimately throws answers 500 `DB error` — not success — even though
the station row is already committed; so "CreateStation still returns
success for every combination of failing publishes" is false. -/
theorem create_station_publish_failure_cex :
    (createStation ⟨[], [], [], "adm"⟩ (some "adm") "Desk" "id1" "m1" false).1 =
      ApiResponse.dbError ∧
    (⟨"id1", "Desk", "m1"⟩ : Station) ∈
      (createStation ⟨[], [], [], "adm"⟩ (some "adm") "Desk" "id1" "m1" false).2.stations ∧
    (createStation ⟨[], [], [], "adm"⟩ (some "adm") "Desk" "id1" "m1" false).1 ≠
      ApiResponse.stationCreated ⟨"id1", "Desk", "m1"⟩ := by
  refine ⟨by decide, by decide, by decide⟩

/-- C6 (amended): Join and Pop publish via `Promise.allSettled`, so their
response and resulting state are independent of every combination of publish
outcomes; CreateStation and DeleteStation commit their mutation regardless of
the publish outcome, but because their single publish is `await`ed inside the
`try` block they answer 500 `DB error` instead of success when it ultimately
throws. -/
theorem notification_failure_isolation :
    (∀ (db : DB) (sid : String) (u : Option String) (pub pub' : Nat → Bool),
      joinQueue db sid u pub = joinQueue db sid u pub') ∧
    (∀ (db : DB) (sid : String) (m : Option String) (pub pub' : Nat → Bool),
      popQueue db sid m pub = popQueue db sid m pub') ∧
    (∀ (db : DB) (name nid nmid : String), name ≠ "" →
      ∀ pubOk : Bool,
        (createStation db (some db.adminSecret) name nid nmid pubOk).2 =
          { db with stations := db.stations ++ [⟨nid, name, nmid⟩] } ∧
        (createStation db (some db.adminSecret) name nid nmid true).1 =
          ApiResponse.stationCreated ⟨nid, name, nmid⟩ ∧
        (createStation db (some db.adminSecret) name nid nmid false).1 =
          ApiResponse.dbError) ∧
    (∀ (db : DB) (sid : String) (st : Station), findStation db sid = some st →
      ∀ pubOk : Bool,
        (deleteStation db (some db.adminSecret) sid pubOk).2 =
          (deleteStation db (some db.adminSecret) sid true).2 ∧
        (deleteStation db (some db.adminSecret) sid true).1 =
          ApiResponse.deleteOk ∧
        (deleteStation db (some db.adminSecret) sid false).1 =
          ApiResponse.dbError) := by
  refine ⟨fun db sid u pub pub' => rfl, fun db sid m pub pub' => rfl, ?_, ?_⟩
  · intro db name nid nmid hname pubOk
    have hn : (name == "") = false := by simpa using hname
    cases pubOk <;> simp [createStation, hn]
  · intro db sid st hst pubOk
    have hst1 : findStation
        { db with
          queue := db.queue.filter (fun e => !(e.stationId == sid)),
          counters := db.counters.filter (fun kv => !(kv.1 == sid)) } sid =
        some st := hst
    cases pubOk <;> simp [deleteStation, hst1]

/-- Witness for the amended C6 at a concrete store and publish outcomes. -/
theorem notification_failure_isolation_witness :
    joinQueue ⟨[⟨"s1", "Desk", "m1"⟩], [], [], "adm"⟩ "s1" (some "p1")
        (fun _ => false) =
      joinQueue ⟨[⟨"s1", "Desk", "m1"⟩], [], [], "adm"⟩ "s1" (some "p1")
        (fun _ => true) ∧
    (createStation ⟨[], [], [], "adm"⟩ (some "adm") "Desk" "id1" "m1" false).2 =
      { stations := [⟨"id1", "Desk", "m1"⟩], queue := [], counters := [],
        adminSecret := "adm" } := by
  refine ⟨notification_failure_isolation.1 _ "s1" (some "p1") _ _, ?_⟩
  have h := (notification_failure_isolation.2.2.1 ⟨[], [], [], "adm"⟩ "Desk"
    "id1" "m1" (by decide) false).1
  rw [h]
  decide

/-- C3 counterexample: the race-losing state — the winner's entry
`(s1, p1, 100)` is already stored — makes the loser's continuation (allocate
then insert) answer 500 `DB error`, not the winner's position 100; the
counter increment to 101 is committed (the permanent gap) and no entry was
added. -/
theorem join_race_returns_500_cex :
    (joinInsertPath ⟨[⟨"s1", "Desk", "m1"⟩], [⟨"s1", "p1", 100⟩],
        [("s1", 100)], "adm"⟩ "s1" "p1").1 = ApiResponse.dbError ∧
    (joinInsertPath ⟨[⟨"s1", "Desk", "m1"⟩], [⟨"s1", "p1", 100⟩],
        [("s1", 100)], "adm"⟩ "s1" "p1").1 ≠ ApiResponse.joined 100 ∧
    counterOf (joinInsertPath ⟨[⟨"s1", "Desk", "m1"⟩], [⟨"s1", "p1", 100⟩],
        [("s1", 100)], "adm"⟩ "s1" "p1").2 "s1" = some 101 ∧
    (joinInsertPath ⟨[⟨"s1", "Desk", "m1"⟩], [⟨"s1", "p1", 100⟩],
        [("s1", 100)], "adm"⟩ "s1" "p1").2.queue = [⟨"s1", "p1", 100⟩] := by
  refine ⟨by decide, by decide, by decide, by decide⟩

/-- C3 (amended): when the insert fails because a concurrent join already
stored an entry for the same (station, participant), the allocated position
is indeed discarded — the committed counter increment leaves a permanent gap
and no entry is added — but Join answers 500 `DB error` rather than the
winning entry's position; the winning position is only returned when the
caller retries, through the idempotent existing-entry path. -/
theorem join_race_lost_gap_and_500 (db : DB) (sid uid : String)
    (e : QueueEntry) (st : Station) (pub : Nat → Bool)
    (hst : findStation db sid = some st)
    (he : findEntry db sid uid = some e) (huid : uid ≠ "") :
    joinInsertPath db sid uid =
      (ApiResponse.dbError, (getNextPositionForStation db sid).2) ∧
    (getNextPositionForStation db sid).2.queue = db.queue ∧
    counterOf (getNextPositionForStation db sid).2 sid =
      some (startIssued db sid + 1) ∧
    (joinQueue (getNextPositionForStation db sid).2 sid (some uid) pub).1 =
      ApiResponse.joined e.position := by
  have he' : db.queue.find? (fun x => x.stationId == sid && x.userId == uid) =
      some e := he
  have hmem : e ∈ db.queue := List.mem_of_find?_eq_some he'
  have hpe := List.find?_some he'
  have hany : db.queue.any
      (fun x => x.stationId == sid && x.userId == uid) = true :=
    List.any_eq_true.mpr ⟨e, hmem, by simpa using hpe⟩
  have hqc : queueCreate (getNextPositionForStation db sid).2
      ⟨sid, uid, (getNextPositionForStation db sid).1⟩ = .error () := by
    unfold queueCreate
    rw [getNext_queue]
    simp only [hany, if_true]
  have hnu : noUserId (some uid) = false := by simpa [noUserId] using huid
  refine ⟨?_, rfl, getNext_counter db sid, ?_⟩
  · show (match queueCreate (getNextPositionForStation db sid).2
        ⟨sid, uid, (getNextPositionForStation db sid).1⟩ with
      | Except.error _ => (ApiResponse.dbError, (getNextPositionForStation db sid).2)
      | Except.ok db2 =>
          (ApiResponse.joined (getNextPositionForStation db sid).1, db2)) =
      (ApiResponse.dbError, (getNextPositionForStation db sid).2)
    rw [hqc]
  · have hst1 : findStation (getNextPositionForStation db sid).2 sid = some st := hst
    have he1 : findEntry (getNextPositionForStation db sid).2 sid uid = some e := he
    simp [joinQueue, hnu, hst1, he1]

/-- Witness for the amended C3 at the concrete race-losing store. -/
theorem join_race_lost_gap_and_500_witness :
    joinInsertPath ⟨[⟨"s1", "Desk", "m1"⟩], [⟨"s1", "p1", 100⟩],
        [("s1", 100)], "adm"⟩ "s1" "p1" =
      (ApiResponse.dbError,
        ⟨[⟨"s1", "Desk", "m1"⟩], [⟨"s1", "p1", 100⟩], [("s1", 101)], "adm"⟩) := by
  have h := (join_race_lost_gap_and_500
    ⟨[⟨"s1", "Desk", "m1"⟩], [⟨"s1", "p1", 100⟩], [("s1", 100)], "adm"⟩
    "s1" "p1" ⟨"s1", "p1", 100⟩ ⟨"s1", "Desk", "m1"⟩ (fun _ => true)
    (by decide) (by decide) (by decide)).1
  rw [h]
  decide

/-- C5: the rank (`actualPosition`) MyQueues reports for a participant in a
station is one plus the number of that station's current entries with a
strictly smaller position, recomputed from current store state. -/
theorem myqueues_rank_correct (db : DB) (sid uid : String) (e : QueueEntry)
    (hwf : WF db) (he : e ∈ db.queue) (hsid : e.stationId = sid)
    (huid : e.userId = uid) :
    actualPositionFor db sid uid =
      1 + db.queue.countP
        (fun x => x.stationId == sid && decide (x.position < e.position)) ∧
    ∃ item ∈ myQueues db uid,
      item.stationId = sid ∧ item.queueNumber = e.position ∧
      item.actualPosition =
        1 + db.queue.countP
          (fun x => x.stationId == sid && decide (x.position < e.position)) := by
  subst hsid
  subst huid
  refine ⟨actualPosition_eq_rank db e hwf he, ?_⟩
  have hef : e ∈ db.queue.filter (fun x => x.userId == e.userId) :=
    List.mem_filter.mpr ⟨he, by simp⟩
  have hes : e ∈ sortByPosition (db.queue.filter (fun x => x.userId == e.userId)) :=
    mem_sortByPosition.mpr hef
  exact ⟨{ stationId := e.stationId,
           stationName := ((findStation db e.stationId).map Station.name).getD "",
           queueNumber := e.position,
           actualPosition := actualPositionFor db e.stationId e.userId },
    List.mem_map_of_mem _ hes, rfl, rfl, actualPosition_eq_rank db e hwf he⟩

/-- Witness for C5: with P1, P2, P3 holding positions 100, 101, 102 in
station `s1`, P2's reported rank is 2; in the store left after P1 was popped
P2's rank is 1 while its stored position is still 101. -/
theorem myqueues_rank_correct_witness :
    actualPositionFor ⟨[⟨"s1", "Desk", "m1"⟩],
        [⟨"s1", "p1", 100⟩, ⟨"s1", "p2", 101⟩, ⟨"s1", "p3", 102⟩],
        [("s1", 102)], "adm"⟩ "s1" "p2" = 2 ∧
    actualPositionFor ⟨[⟨"s1", "Desk", "m1"⟩],
        [⟨"s1", "p2", 101⟩, ⟨"s1", "p3", 102⟩],
        [("s1", 102)], "adm"⟩ "s1" "p2" = 1 ∧
    (⟨"s1", "p2", 101⟩ : QueueEntry) ∈
      (⟨[⟨"s1", "Desk", "m1"⟩],
        [⟨"s1", "p2", 101⟩, ⟨"s1", "p3", 102⟩],
        [("s1", 102)], "adm"⟩ : DB).queue := by
  refine ⟨?_, ?_, by decide⟩
  · rw [(myqueues_rank_correct ⟨[⟨"s1", "Desk", "m1"⟩],
        [⟨"s1", "p1", 100⟩, ⟨"s1", "p2", 101⟩, ⟨"s1", "p3", 102⟩],
        [("s1", 102)], "adm"⟩ "s1" "p2" ⟨"s1", "p2", 101⟩
        (by decide) (by decide) rfl rfl).1]
    decide
  · rw [(myqueues_rank_correct ⟨[⟨"s1", "Desk", "m1"⟩],
        [⟨"s1", "p2", 101⟩, ⟨"s1", "p3", 102⟩],
        [("s1", 102)], "adm"⟩ "s1" "p2" ⟨"s1", "p2", 101⟩
        (by decide) (by decide) rfl rfl).1]
    decide

/-- C8: a successful pop on a non-empty station removes exactly the entry
with the smallest position of that station — every other queue entry, the
stations and every position counter keep their prior values. -/
theorem pop_removes_min_frame (db : DB) (sid : String) (st : Station)
    (first : QueueEntry) (pub : Nat → Bool) (hwf : WF db)
    (hst : findStation db sid = some st)
    (hfirst : (listByStation db sid).head? = some first) :
    popQueue db sid (some st.managerId) pub =
      (ApiResponse.popResult (some first.userId),
        { db with queue := (db.queue.eraseP
            (fun e => e.stationId == sid && e.userId == first.userId)) }) ∧
    first ∈ db.queue ∧ first.stationId = sid ∧
    (∀ e ∈ db.queue, e.stationId = sid → e ≠ first →
      first.position < e.position) ∧
    (∀ x : QueueEntry,
      x ∈ (popQueue db sid (some st.managerId) pub).2.queue ↔
        (x ∈ db.queue ∧ x ≠ first)) ∧
    (popQueue db sid (some st.managerId) pub).2.stations = db.stations ∧
    (popQueue db sid (some st.managerId) pub).2.counters = db.counters := by
  have heq : popQueue db sid (some st.managerId) pub =
      (ApiResponse.popResult (some first.userId),
        { db with queue := (db.queue.eraseP
            (fun e => e.stationId == sid && e.userId == first.userId)) }) := by
    simp [popQueue, hst, hfirst]
  obtain ⟨rest, hlist⟩ : ∃ rest, listByStation db sid = first :: rest := by
    cases hl : listByStation db sid with
    | nil => rw [hl] at hfirst; cases hfirst
    | cons a t =>
        rw [hl] at hfirst
        simp only [List.head?_cons, Option.some.injEq] at hfirst
        exact ⟨t, by rw [hfirst]⟩
  have hfmem : first ∈ db.queue ∧ first.stationId = sid :=
    mem_listByStation.mp (hlist ▸ List.mem_cons_self first rest)
  have hmin : ∀ e ∈ db.queue, e.stationId = sid → e ≠ first →
      first.position < e.position := by
    intro e hee hesid hne
    have heL : e ∈ listByStation db sid := mem_listByStation.mpr ⟨hee, hesid⟩
    have hsorted := listByStation_sorted db sid
    rw [hlist] at heL hsorted
    rcases List.mem_cons.mp heL with rfl | heR
    · exact absurd rfl hne
    · have hle : first.position ≤ e.position :=
        List.rel_of_pairwise_cons hsorted heR
      have hposne := (listByStation_pairwise_posNe db sid hwf).forall
        (fun x y h => h.symm)
        (hlist ▸ List.mem_cons_self first rest)
        (hlist ▸ List.mem_cons_of_mem first heR)
        hne.symm
      omega
  have hpfirst : (fun e : QueueEntry =>
      e.stationId == sid && e.userId == first.userId) first = true := by
    simp [hfmem.2]
  have honce : db.queue.Pairwise (fun x y =>
      ¬((fun e : QueueEntry => e.stationId == sid && e.userId == first.userId) x = true ∧
        (fun e : QueueEntry => e.stationId == sid && e.userId == first.userId) y = true)) := by
    refine hwf.1.imp ?_
    intro a b hR hcon
    obtain ⟨hpa, hpb⟩ := hcon
    simp only [Bool.and_eq_true, beq_iff_eq] at hpa hpb
    exact hR ⟨hpa.1.trans hpb.1.symm, hpa.2.trans hpb.2.symm⟩
  have hiff := mem_eraseP_of_unique hfmem.1 hpfirst honce
  refine ⟨heq, hfmem.1, hfmem.2, hmin, ?_, by rw [heq], by rw [heq]⟩
  intro x
  rw [heq]
  exact hiff x

/-- Witness for C8: popping `s1` holding positions 100, 101, 102 removes
exactly the entry at 100 and leaves the rest of the store intact. -/
theorem pop_removes_min_frame_witness :
    popQueue ⟨[⟨"s1", "Desk", "m1"⟩],
        [⟨"s1", "p1", 100⟩, ⟨"s1", "p2", 101⟩, ⟨"s1", "p3", 102⟩],
        [("s1", 102)], "adm"⟩ "s1" (some "m1") (fun _ => true) =
      (ApiResponse.popResult (some "p1"),
        ⟨[⟨"s1", "Desk", "m1"⟩],
          [⟨"s1", "p2", 101⟩, ⟨"s1", "p3", 102⟩],
          [("s1", 102)], "adm"⟩) := by
  have h := (pop_removes_min_frame ⟨[⟨"s1", "Desk", "m1"⟩],
      [⟨"s1", "p1", 100⟩, ⟨"s1", "p2", 101⟩, ⟨"s1", "p3", 102⟩],
      [("s1", 102)], "adm"⟩ "s1" ⟨"s1", "Desk", "m1"⟩ ⟨"s1", "p1", 100⟩
      (fun _ => true) (by decide) (by decide) (by decide)).1
  rw [h]
  decide

/-- C7: a successful DeleteStation removes the station record, every queue
entry and the `lastPosition` counter of that station; and on any store in
which a station id is fresh — no counter, no entries — the first join to it
is assigned the floor position 100. -/
theorem delete_station_cascade (db : DB) (sid : String) (st : Station)
    (pubOk : Bool)
    (hids : db.stations.Pairwise (fun a b => a.id ≠ b.id))
    (hst : findStation db sid = some st) :
    (pubOk = true →
      (deleteStation db (some db.adminSecret) sid pubOk).1 =
        ApiResponse.deleteOk) ∧
    findStation (deleteStation db (some db.adminSecret) sid pubOk).2 sid =
      none ∧
    (∀ e ∈ (deleteStation db (some db.adminSecret) sid pubOk).2.queue,
      e.stationId ≠ sid) ∧
    counterOf (deleteStation db (some db.adminSecret) sid pubOk).2 sid =
      none ∧
    (∀ (db' : DB) (nid uid : String) (st' : Station) (pub : Nat → Bool),
      findStation db' nid = some st' → counterOf db' nid = none →
      (∀ e ∈ db'.queue, e.stationId ≠ nid) → uid ≠ "" →
      (joinQueue db' nid (some uid) pub).1 = ApiResponse.joined 100 ∧
      counterOf (joinQueue db' nid (some uid) pub).2 nid = some 100) := by
  have hst1 : findStation
      { db with
        queue := db.queue.filter (fun e => !(e.stationId == sid)),
        counters := db.counters.filter (fun kv => !(kv.1 == sid)) } sid =
      some st := hst
  have h2 : (deleteStation db (some db.adminSecret) sid pubOk).2.stations =
      db.stations.eraseP (fun s => s.id == sid) := by
    cases pubOk <;> simp [deleteStation, hst1]
  have h3 : (deleteStation db (some db.adminSecret) sid pubOk).2.queue =
      db.queue.filter (fun e => !(e.stationId == sid)) := by
    cases pubOk <;> simp [deleteStation, hst1]
  have h4 : (deleteStation db (some db.adminSecret) sid pubOk).2.counters =
      db.counters.filter (fun kv => !(kv.1 == sid)) := by
    cases pubOk <;> simp [deleteStation, hst1]
  have hst' : db.stations.find? (fun s => s.id == sid) = some st := hst
  have hstmem : st ∈ db.stations := List.mem_of_find?_eq_some hst'
  have hstp := List.find?_some hst'
  have honceS : db.stations.Pairwise (fun x y =>
      ¬((fun s : Station => s.id == sid) x = true ∧
        (fun s : Station => s.id == sid) y = true)) := by
    refine hids.imp ?_
    intro a b hR hcon
    obtain ⟨hpa, hpb⟩ := hcon
    simp only [beq_iff_eq] at hpa hpb
    exact hR (hpa.trans hpb.symm)
  have hiffS := mem_eraseP_of_unique hstmem hstp honceS
  refine ⟨?_, ?_, ?_, ?_, ?_⟩
  · intro h
    subst h
    simp [deleteStation, hst1]
  · show (deleteStation db (some db.adminSecret) sid pubOk).2.stations.find?
      (fun s => s.id == sid) = none
    rw [h2]
    refine List.find?_eq_none.mpr ?_
    intro x hx
    obtain ⟨hxmem, hxne⟩ := (hiffS x).mp hx
    intro hpx
    simp only [beq_iff_eq] at hpx hstp
    exact hids.forall (fun a b h => h.symm) hxmem hstmem hxne
      (hpx.trans hstp.symm)
  · intro e he
    rw [h3] at he
    have := (List.mem_filter.mp he).2
    simpa using this
  · show counterLookup
      (deleteStation db (some db.adminSecret) sid pubOk).2.counters sid = none
    rw [h4]
    unfold counterLookup
    rw [List.find?_eq_none.mpr ?hnone]
    · rfl
    case hnone =>
      intro kv hkv
      have := (List.mem_filter.mp hkv).2
      simpa using this
  · intro db' nid uid st' pub hfs hcn hq huid
    have hnu : noUserId (some uid) = false := by simpa [noUserId] using huid
    have hfe : findEntry db' nid uid = none := by
      unfold findEntry
      refine List.find?_eq_none.mpr ?_
      intro x hx hcon
      simp only [Bool.and_eq_true, beq_iff_eq] at hcon
      exact hq x hx hcon.1
    have hpos : (getNextPositionForStation db' nid).1 = 100 := by
      rw [getNext_fst]
      simp [startIssued, hcn]
    have hany1 : ((getNextPositionForStation db' nid).2.queue.any
        (fun x => x.stationId == nid && x.userId == uid)) = false := by
      rw [getNext_queue]
      refine List.any_eq_false.mpr ?_
      intro x hx hcon
      simp only [Bool.and_eq_true, beq_iff_eq] at hcon
      exact hq x hx hcon.1
    have hany2 : ((getNextPositionForStation db' nid).2.queue.any
        (fun x => x.stationId == nid &&
          x.position == (getNextPositionForStation db' nid).1)) = false := by
      rw [getNext_queue]
      refine List.any_eq_false.mpr ?_
      intro x hx hcon
      simp only [Bool.and_eq_true, beq_iff_eq] at hcon
      exact hq x hx hcon.1
    have hqc : queueCreate (getNextPositionForStation db' nid).2
        ⟨nid, uid, (getNextPositionForStation db' nid).1⟩ =
        .ok { (getNextPositionForStation db' nid).2 with
          queue := ((getNextPositionForStation db' nid).2.queue ++
            [⟨nid, uid, (getNextPositionForStation db' nid).1⟩]) } := by
      unfold queueCreate
      simp only [hany1, hany2, Bool.false_eq_true, if_false]
    have hjoin : joinQueue db' nid (some uid) pub =
        (ApiResponse.joined (getNextPositionForStation db' nid).1,
          { (getNextPositionForStation db' nid).2 with
            queue := ((getNextPositionForStation db' nid).2.queue ++
              [⟨nid, uid, (getNextPositionForStation db' nid).1⟩]) }) := by
      simp [joinQueue, hnu, hfs, hfe, joinInsertPath, hqc]
    constructor
    · rw [hjoin, hpos]
    · rw [hjoin]
      show counterOf (getNextPositionForStation db' nid).2 nid = some 100
      rw [getNext_counter]
      simp [startIssued, hcn]

/-- Witness for C7 at a concrete store: deleting `s1` leaves no station
record, and no counter row for `s1`. -/
theorem delete_station_cascade_witness :
    (deleteStation ⟨[⟨"s1", "Desk", "m1"⟩], [⟨"s1", "p1", 100⟩],
        [("s1", 100)], "adm"⟩ (some "adm") "s1" true).1 =
      ApiResponse.deleteOk ∧
    findStation (deleteStation ⟨[⟨"s1", "Desk", "m1"⟩], [⟨"s1", "p1", 100⟩],
        [("s1", 100)], "adm"⟩ (some "adm") "s1" true).2 "s1" = none ∧
    counterOf (deleteStation ⟨[⟨"s1", "Desk", "m1"⟩], [⟨"s1", "p1", 100⟩],
        [("s1", 100)], "adm"⟩ (some "adm") "s1" true).2 "s1" = none := by
  have h := delete_station_cascade
    ⟨[⟨"s1", "Desk", "m1"⟩], [⟨"s1", "p1", 100⟩], [("s1", 100)], "adm"⟩
    "s1" ⟨"s1", "Desk", "m1"⟩ true (by decide) (by decide)
  exact ⟨h.1 rfl, h.2.1, h.2.2.2.1⟩

/-- C4: joining the same station twice in a row is idempotent — both calls
answer the same position, the second call leaves the store exactly as the
first left it (no new entry, no counter increment), and the store holds
exactly one entry for the (station, participant) pair. -/
theorem join_idempotent (db : DB) (sid uid : String) (st : Station)
    (pub pub' : Nat → Bool) (hwf : WF db) (hci : CounterInv db)
    (hst : findStation db sid = some st) (huid : uid ≠ "") :
    (∃ p : Int,
      (joinQueue db sid (some uid) pub).1 = ApiResponse.joined p ∧
      (joinQueue (joinQueue db sid (some uid) pub).2 sid (some uid) pub').1 =
        ApiResponse.joined p) ∧
    (joinQueue (joinQueue db sid (some uid) pub).2 sid (some uid) pub').2 =
      (joinQueue db sid (some uid) pub).2 ∧
    (joinQueue db sid (some uid) pub).2.queue.countP
      (fun e => e.stationId == sid && e.userId == uid) = 1 := by
  have hnu : noUserId (some uid) = false := by simpa [noUserId] using huid
  have honce : db.queue.Pairwise (fun x y =>
      ¬((fun e : QueueEntry => e.stationId == sid && e.userId == uid) x = true ∧
        (fun e : QueueEntry => e.stationId == sid && e.userId == uid) y = true)) := by
    refine hwf.1.imp ?_
    intro a b hR hcon
    obtain ⟨hpa, hpb⟩ := hcon
    simp only [Bool.and_eq_true, beq_iff_eq] at hpa hpb
    exact hR ⟨hpa.1.trans hpb.1.symm, hpa.2.trans hpb.2.symm⟩
  cases hfe : findEntry db sid uid with
  | some e =>
      have hr1 : joinQueue db sid (some uid) pub =
          (ApiResponse.joined e.position, db) := by
        simp [joinQueue, hnu, hst, hfe]
      have hr2 : joinQueue db sid (some uid) pub' =
          (ApiResponse.joined e.position, db) := by
        simp [joinQueue, hnu, hst, hfe]
      have he' : db.queue.find?
          (fun x => x.stationId == sid && x.userId == uid) = some e := hfe
      have hmem := List.mem_of_find?_eq_some he'
      have hpe := List.find?_some he'
      refine ⟨⟨e.position, by rw [hr1], ?_⟩, ?_, ?_⟩
      · rw [hr1]
        rw [hr2]
      · rw [hr1]
        rw [hr2]
      · rw [hr1]
        exact countP_eq_one_of_unique hmem (by simpa using hpe) honce
  | none =>
      have hfe' : db.queue.find?
          (fun x => x.stationId == sid && x.userId == uid) = none := hfe
      have hnone := List.find?_eq_none.mp hfe'
      have hany1 : ((getNextPositionForStation db sid).2.queue.any
          (fun x => x.stationId == sid && x.userId == uid)) = false := by
        rw [getNext_queue]
        exact List.any_eq_false.mpr hnone
      have hany2 : ((getNextPositionForStation db sid).2.queue.any
          (fun x => x.stationId == sid &&
            x.position == (getNextPositionForStation db sid).1)) = false := by
        rw [getNext_queue]
        refine List.any_eq_false.mpr ?_
        intro x hx hcon
        simp only [Bool.and_eq_true, beq_iff_eq] at hcon
        obtain ⟨v, hv, hle⟩ := hci x hx
        rw [hcon.1] at hv
        have hs : startIssued db sid = v := by simp [startIssued, hv]
        have hp1 : (getNextPositionForStation db sid).1 = v + 1 := by
          rw [getNext_fst, hs]
        rw [hp1] at hcon
        omega
      have hqc : queueCreate (getNextPositionForStation db sid).2
          ⟨sid, uid, (getNextPositionForStation db sid).1⟩ =
          .ok { (getNextPositionForStation db sid).2 with
            queue := ((getNextPositionForStation db sid).2.queue ++
              [⟨sid, uid, (getNextPositionForStation db sid).1⟩]) } := by
        unfold queueCreate
        simp only [hany1, hany2, Bool.false_eq_true, if_false]
      have hr1 : joinQueue db sid (some uid) pub =
          (ApiResponse.joined (getNextPositionForStation db sid).1,
            { (getNextPositionForStation db sid).2 with
              queue := ((getNextPositionForStation db sid).2.queue ++
                [⟨sid, uid, (getNextPositionForStation db sid).1⟩]) }) := by
        simp [joinQueue, hnu, hst, hfe, joinInsertPath, hqc]
      have hst2 : findStation
          { (getNextPositionForStation db sid).2 with
            queue := ((getNextPositionForStation db sid).2.queue ++
              [⟨sid, uid, (getNextPositionForStation db sid).1⟩]) } sid =
          some st := hst
      have hfe2 : findEntry
          { (getNextPositionForStation db sid).2 with
            queue := ((getNextPositionForStation db sid).2.queue ++
              [⟨sid, uid, (getNextPositionForStation db sid).1⟩]) } sid uid =
          some ⟨sid, uid, (getNextPositionForStation db sid).1⟩ := by
        show ((getNextPositionForStation db sid).2.queue ++
            [(⟨sid, uid, (getNextPositionForStation db sid).1⟩ : QueueEntry)]).find?
          (fun x => x.stationId == sid && x.userId == uid) =
          some ⟨sid, uid, (getNextPositionForStation db sid).1⟩
        rw [getNext_queue, List.find?_append, hfe']
        simp [List.find?]
      have hr2 : joinQueue
          { (getNextPositionForStation db sid).2 with
            queue := ((getNextPositionForStation db sid).2.queue ++
              [⟨sid, uid, (getNextPositionForStation db sid).1⟩]) } sid
          (some uid) pub' =
          (ApiResponse.joined (getNextPositionForStation db sid).1,
            { (getNextPositionForStation db sid).2 with
              queue := ((getNextPositionForStation db sid).2.queue ++
                [⟨sid, uid, (getNextPositionForStation db sid).1⟩]) }) := by
        simp [joinQueue, hnu, hst2, hfe2]
      have hcz : db.queue.countP
          (fun e => e.stationId == sid && e.userId == uid) = 0 :=
        List.countP_eq_zero.mpr hnone
      refine ⟨⟨(getNextPositionForStation db sid).1, by rw [hr1], ?_⟩, ?_, ?_⟩
      · rw [hr1]
        rw [hr2]
      · rw [hr1]
        rw [hr2]
      · rw [hr1]
        show ((getNextPositionForStation db sid).2.queue ++
            [(⟨sid, uid, (getNextPositionForStation db sid).1⟩ : QueueEntry)]).countP
          (fun e => e.stationId == sid && e.userId == uid) = 1
        rw [getNext_queue, List.countP_append, hcz]
        simp [List.countP, List.countP.go]

/-- Witness for C4: joining twice at a concrete empty station — the second
call leaves the state of the first and exactly one entry exists. -/
theorem join_idempotent_witness :
    (joinQueue (joinQueue ⟨[⟨"s1", "Desk", "m1"⟩], [], [], "adm"⟩ "s1"
        (some "p1") (fun _ => true)).2 "s1" (some "p1") (fun _ => true)).2 =
      (joinQueue ⟨[⟨"s1", "Desk", "m1"⟩], [], [], "adm"⟩ "s1" (some "p1")
        (fun _ => true)).2 ∧
    (joinQueue ⟨[⟨"s1", "Desk", "m1"⟩], [], [], "adm"⟩ "s1" (some "p1")
        (fun _ => true)).2.queue.countP
      (fun e => e.stationId == "s1" && e.userId == "p1") = 1 := by
  have h := join_idempotent ⟨[⟨"s1", "Desk", "m1"⟩], [], [], "adm"⟩ "s1" "p1"
    ⟨"s1", "Desk", "m1"⟩ (fun _ => true) (fun _ => true)
    (by decide) (by decide) (by decide) (by decide)
  exact ⟨h.2.1, h.2.2⟩
